import Mathlib

/-!
Verification of `common.go` from the `go-octoprint` repository.

The file shallowly embeds the two normalizing JSON decoders
(`TemperatureState.UnmarshalJSON`, `HistoricTemperatureData.UnmarshalJSON`)
and the `ConnectionState` prefix classifier, and proves the specification
claims about them.

Modelling conventions:

* JSON values are the inductive `Json`; numbers carry exact rationals as
  they appear on the wire.
* Go's `json.Unmarshal(b, &raw)` into `map[string]interface{}` is modelled
  by `goDecode`/`goDecodeFields`: every JSON number is converted to the
  nearest IEEE-754 binary64 value (`round53`, ties to even, `none` on
  overflow exactly where Go's decoder reports an out-of-range error), and
  every object becomes a Go map, modelled as a key-sorted association list
  with later duplicate keys overwriting earlier ones (`toGoMap`), which is
  also the key order `json.Marshal` emits for a map.
* The decoders take `Option Json`: `none` stands for input bytes that are
  not parseable JSON at all (the byte-level parser is the Go standard
  library's); `some v` stands for bytes parsing to the value `v`.
* `DecodeResult` has a third outcome `panic` for a runtime panic that
  terminates the process (the unchecked `ts.(float64)` type assertion in
  `HistoricTemperatureData.UnmarshalJSON`).
* `time.Unix(sec, 0)` is modelled by `GoTime` with `Nsec = 0`; the
  RFC 3339 marshal/unmarshal round trip of `time.Time` preserves the
  instant and is modelled as the identity, except that `time.Time`'s
  JSON marshalling fails outside year range [0, 9999], which the Go code
  ignores (`b, _ = json.Marshal(...)`) so the subsequent unmarshal of nil
  bytes yields a decode error; `timeUnixOK` captures that year range.
* Go strings are Lean `String`s; `strings.HasPrefix` is `goHasPre`
  (byte-prefix and character-prefix coincide for the ASCII prefixes used).
-/

set_option maxRecDepth 40000

/-- A JSON value as parsed from the wire. Object fields are in wire order
and may contain duplicate keys. -/
inductive Json where
  | null
  | bool (b : Bool)
  | num (q : ℚ)
  | str (s : String)
  | arr (elems : List Json)
  | obj (fields : List (String × Json))

/-- Fuel-driven floor of log base 2 (fuel version so that it is structural
and kernel-reducible). -/
def natLog2F : Nat → Nat → Nat
  | 0, _ => 0
  | f + 1, n => if n ≤ 1 then 0 else natLog2F f (n / 2) + 1

/-- Floor of log base 2 of a natural number (0 for 0). -/
def natLog2 (n : Nat) : Nat := natLog2F n n

/-- Decides `2 ^ e ≤ |q|` using only integer arithmetic. -/
def pow2LeAbs (e : ℤ) (q : ℚ) : Bool :=
  if 0 ≤ e then decide (2 ^ e.toNat * q.den ≤ q.num.natAbs)
  else decide (q.den ≤ 2 ^ (-e).toNat * q.num.natAbs)

/-- The exponent `e` with `2 ^ e ≤ |q| < 2 ^ (e + 1)`, for `q ≠ 0`. -/
def qlog2 (q : ℚ) : ℤ :=
  let g : ℤ := (natLog2 q.num.natAbs : ℤ) - (natLog2 q.den : ℤ)
  if pow2LeAbs (g + 1) q then g + 1
  else if pow2LeAbs g q then g
  else g - 1

/-- Maximum of two integers, written so that it kernel-reduces. -/
def maxZ (a b : ℤ) : ℤ := if a ≤ b then b else a

/-- Rounding of an exact rational to the nearest IEEE-754 binary64 value
(round to nearest, ties to even, gradual underflow below `2 ^ (-1022)`,
`none` on overflow at `2 ^ 1024`). This is what Go's `encoding/json`
does to every number it stores into an `interface{}` or a `float64`
(via `strconv.ParseFloat`); an overflowing literal makes `json.Unmarshal`
return an error. Computed purely on numerator/denominator so that the
definition kernel-reduces. -/
def round53 (q : ℚ) : Option ℚ :=
  if q.num = 0 then some 0
  else
    let s : ℤ := maxZ (qlog2 q - 52) (-1074)
    let xn : ℤ := if 0 ≤ s then q.num else q.num * (2 ^ (-s).toNat : ℤ)
    let xd : ℤ := if 0 ≤ s then (q.den : ℤ) * (2 ^ s.toNat : ℤ) else (q.den : ℤ)
    let f : ℤ := xn / xd
    let rem2 : ℤ := 2 * (xn - f * xd)
    let n : ℤ :=
      if rem2 < xd then f
      else if xd < rem2 then f + 1
      else if f % 2 = 0 then f else f + 1
    if 0 ≤ s then
      if 2 ^ (1024 - s).toNat ≤ n.natAbs then none
      else some ((n * (2 ^ s.toNat : ℤ) : ℤ) : ℚ)
    else
      if 2 ^ 1024 * 2 ^ (-s).toNat ≤ n.natAbs then none
      else some (mkRat n (2 ^ (-s).toNat))

/-- Lexicographic comparison of character lists by code point. For the
UTF-8 encoding Go uses this coincides with Go's byte-wise `<` on strings,
which is the order `json.Marshal` sorts map keys by. -/
def charsLt : List Char → List Char → Bool
  | [], [] => false
  | [], _ :: _ => true
  | _ :: _, [] => false
  | c :: cs, d :: ds =>
    if c.toNat < d.toNat then true
    else if d.toNat < c.toNat then false
    else charsLt cs ds

/-- Go's byte-wise `<` on strings. -/
def strLtB (a b : String) : Bool := charsLt a.data b.data

/-- Store a binding into a key-sorted association list, overwriting an
existing binding of the same key. This models one `m[k] = v` map store. -/
def mapInsert (k : String) (v : Json) : List (String × Json) → List (String × Json)
  | [] => [(k, v)]
  | (k1, v1) :: rest =>
    if strLtB k k1 then (k, v) :: (k1, v1) :: rest
    else if k = k1 then (k, v) :: rest
    else (k1, v1) :: mapInsert k v rest

/-- Build a Go map from JSON object fields in wire order: later duplicate
keys overwrite earlier ones, exactly as `encoding/json` fills a
`map[string]interface{}`. The sorted representation is the key order
`json.Marshal` later emits. -/
def toGoMapAux : List (String × Json) → List (String × Json) → List (String × Json)
  | [], m => m
  | (k, v) :: fs, m => toGoMapAux fs (mapInsert k v m)

/-- The Go map `raw` obtained by unmarshalling a JSON object's fields. -/
def toGoMap (fs : List (String × Json)) : List (String × Json) :=
  toGoMapAux fs []

/-- Map lookup `m[k]` (first binding; bindings are unique in a built map). -/
def lookupKey (k : String) : List (String × Json) → Option Json
  | [] => none
  | (k1, v) :: rest => if k1 = k then some v else lookupKey k rest

/-- Map deletion `delete(m, k)`. -/
def eraseKey (k : String) : List (String × Json) → List (String × Json)
  | [] => []
  | (k1, v) :: rest =>
    if k1 = k then eraseKey k rest else (k1, v) :: eraseKey k rest

mutual
/-- Go's generic decode of a JSON value into `interface{}`: numbers become
binary64 floats (`round53`; `none` when `json.Unmarshal` would report the
number out of range), objects become Go maps (`toGoMap`), everything else
is kept. Marshalling the resulting `interface{}` back re-emits exactly
these values with map keys sorted, so `goDecode` is also the composite
decode/re-encode pass both decoders run on their input. -/
def goDecode : Json → Option Json
  | .null => some .null
  | .bool b => some (.bool b)
  | .str s => some (.str s)
  | .num q =>
    match round53 q with
    | none => none
    | some r => some (.num r)
  | .arr xs =>
    match goDecodeList xs with
    | none => none
    | some ys => some (.arr ys)
  | .obj fs =>
    match goDecodeFields fs with
    | none => none
    | some gs => some (.obj (toGoMap gs))

/-- `goDecode` on every element of a JSON array. -/
def goDecodeList : List Json → Option (List Json)
  | [] => some []
  | x :: xs =>
    match goDecode x, goDecodeList xs with
    | some y, some ys => some (y :: ys)
    | _, _ => none

/-- `goDecode` on every value of a JSON object's field list (keys kept in
wire order; `toGoMap` is applied separately by `goDecode`). -/
def goDecodeFields : List (String × Json) → Option (List (String × Json))
  | [] => some []
  | (k, v) :: fs =>
    match goDecode v, goDecodeFields fs with
    | some w, some ws => some ((k, w) :: ws)
    | _, _ => none
end

/-- `TemperatureData` from `common.go`: temperature stats for a tool.
Go's `float64` fields hold binary64 values; we carry the exact rational
each such value denotes. -/
structure TemperatureData where
  Actual : ℚ
  Target : ℚ
  Offset : ℚ

/-- A `time.Time` instant: seconds and nanoseconds since the Unix epoch
(UTC). The code only ever constructs `time.Unix(sec, 0)`. -/
structure GoTime where
  Sec : ℤ
  Nsec : ℤ

/-- `time.Unix(sec, 0)`. -/
def timeUnix (sec : ℤ) : GoTime := ⟨sec, 0⟩

/-- Whether `time.Time.MarshalJSON` accepts the instant: the year must lie
in [0, 9999]. Outside it `json.Marshal` fails, the Go code drops the error
and the follow-up `json.Unmarshal` of nil bytes reports a decode error. -/
def timeUnixOK (sec : ℤ) : Bool :=
  decide (-62167219200 ≤ sec) && decide (sec ≤ 253402300799)

/-- Go's `int64(f)` conversion of a float64 value: truncation toward zero.
(For values overflowing int64 the Go conversion is unspecified; all such
values fail the `timeUnixOK` year check afterwards, so the decoders'
observable behaviour does not depend on that case.) -/
def truncInt (q : ℚ) : ℤ :=
  if 0 ≤ q.num then q.num / (q.den : ℤ) else -((-q.num) / (q.den : ℤ))

/-- `HistoricTemperatureData` from `common.go`. -/
structure HistoricTemperatureData where
  Time : GoTime
  Tools : List (String × TemperatureData)

/-- `TemperatureState` from `common.go`. `History` elements are `Option`
because the Go slice has type `[]*HistoricTemperatureData` and a JSON
`null` element decodes to a nil pointer. -/
structure TemperatureState where
  Current : List (String × TemperatureData)
  History : List (Option HistoricTemperatureData)

/-- Outcome of running an `UnmarshalJSON` method: a value, a returned
error, or a runtime panic that terminates the process. -/
inductive DecodeResult (α : Type) where
  | ok (a : α)
  | err (e : String)
  | panicked (e : String)

/-- ASCII lower-casing of one character. -/
def asciiLower (c : Char) : Char :=
  if 65 ≤ c.toNat ∧ c.toNat ≤ 90 then Char.ofNat (c.toNat + 32) else c

/-- ASCII lower-casing of a string (`encoding/json` folds key candidates
with `strings.EqualFold`; for the pure-ASCII tags `actual`, `target`,
`offset` that is ASCII case folding). -/
def lowerStr (s : String) : String := ⟨s.data.map asciiLower⟩

/-- Which `TemperatureData` field a JSON object key addresses.
`encoding/json` matches a key against field tags exactly first, then
case-insensitively; the three tags are distinct case-insensitively, so
lower-casing the key decides the match. -/
def tdTag (k : String) : Option String :=
  if lowerStr k = "actual" then some "actual"
  else if lowerStr k = "target" then some "target"
  else if lowerStr k = "offset" then some "offset"
  else none

/-- Store a number into the addressed `TemperatureData` field. -/
def setTDField (td : TemperatureData) (tag : String) (q : ℚ) : TemperatureData :=
  if tag = "actual" then ⟨q, td.Target, td.Offset⟩
  else if tag = "target" then ⟨td.Actual, q, td.Offset⟩
  else ⟨td.Actual, td.Target, q⟩

/-- Decode the fields of a JSON object into a `TemperatureData` (Go struct
decoding): unknown keys are ignored, `null` leaves a field untouched, a
non-number value for a float64 field is an `UnmarshalTypeError`. Go keeps
decoding after such an error and reports the first one; since the caller
discards the value on error, returning at the first error is
observationally the same (no panic can occur in this struct). -/
def decodeTDFields : TemperatureData → List (String × Json) → Except String TemperatureData
  | td, [] => .ok td
  | td, (k, v) :: rest =>
    match tdTag k with
    | none => decodeTDFields td rest
    | some tag =>
      match v with
      | .num q => decodeTDFields (setTDField td tag q) rest
      | .null => decodeTDFields td rest
      | _ => .error "cannot unmarshal value into Go value of type float64"

/-- Decode one JSON value as a `TemperatureData` (`null` leaves the zero
value, a non-object is an `UnmarshalTypeError`). -/
def decodeTD : Json → Except String TemperatureData
  | .null => .ok ⟨0, 0, 0⟩
  | .obj fs => decodeTDFields ⟨0, 0, 0⟩ fs
  | _ => .error "cannot unmarshal value into Go value of type octoprint.TemperatureData"

/-- Decode a Go map's fields into `map[string]TemperatureData`, value by
value in key order; first error reported (Go continues decoding the rest,
but no tool value can panic, so this is observationally the same). -/
def decodeToolMap : List (String × Json) → Except String (List (String × TemperatureData))
  | [] => .ok []
  | (k, v) :: rest =>
    match decodeTD v, decodeToolMap rest with
    | .ok td, .ok m => .ok ((k, td) :: m)
    | .error e, _ => .error e
    | .ok _, .error e => .error e

/-- Decode a JSON value into `map[string]TemperatureData`: `null` gives a
nil map, an object decodes value-wise, anything else is a type error. -/
def decodeToolMapField : Json → Except String (List (String × TemperatureData))
  | .null => .ok []
  | .obj fs => decodeToolMap fs
  | _ => .error "cannot unmarshal value into Go value of type map"

/-- `HistoricTemperatureData.UnmarshalJSON` from `common.go`, lines
156-176. Steps, mirroring the source: unmarshal the bytes into
`map[string]interface{}` (error on unparseable bytes or non-object, and
on any out-of-range number); read `raw["time"]` and `delete` it; the
unchecked type assertion `ts.(float64)` PANICS when `"time"` is absent or
its value is not a number; `time.Unix(int64(ts), 0)` truncates toward
zero; re-marshal `{"time": ..., "tools": rest}` (nil bytes on a
non-marshallable year, making the second unmarshal fail) and decode the
result into the plain struct; the receiver is assigned only on success. -/
def HistoricTemperatureData.unmarshal : Option Json → DecodeResult HistoricTemperatureData
  | none => .err "invalid JSON"
  | some (.obj fs) =>
    match goDecodeFields fs with
    | none => .err "number out of range"
    | some gs =>
      match lookupKey "time" (toGoMap gs) with
      | some (.num q) =>
        let sec := truncInt q
        if timeUnixOK sec then
          match decodeToolMap (eraseKey "time" (toGoMap gs)) with
          | .ok tools => .ok ⟨timeUnix sec, tools⟩
          | .error e => .err e
        else .err "unexpected end of JSON input"
      | _ => .panicked "interface conversion: interface is nil or not float64"
  | some _ => .err "cannot unmarshal value into Go value of type map"

/-- Decode one element of the `history` array: a JSON `null` becomes a nil
`*HistoricTemperatureData` without invoking `UnmarshalJSON`; any other
value is handed to `HistoricTemperatureData.UnmarshalJSON` (as its
re-marshalled bytes, which parse back to the same value). -/
def decodeHistElem (v : Json) : DecodeResult (Option HistoricTemperatureData)
 :=
  match v with
  | .null => .ok none
  | v =>
    match HistoricTemperatureData.unmarshal (some v) with
    | .ok h => .ok (some h)
    | .err e => .err e
    | .panicked e => .panicked e

/-- Decode the elements of the `history` array. `encoding/json` saves the
first element error and keeps decoding later elements, so a panic in a
later element still fires after an earlier error; a panic anywhere aborts
the process. -/
def decodeHistList : List Json → DecodeResult (List (Option HistoricTemperatureData))
  | [] => .ok []
  | x :: xs =>
    match decodeHistElem x, decodeHistList xs with
    | .panicked e, _ => .panicked e
    | _, .panicked e => .panicked e
    | .err e, _ => .err e
    | .ok _, .err e => .err e
    | .ok a, .ok l => .ok (a :: l)

/-- Decode a JSON value into `[]*HistoricTemperatureData`: `null` gives a
nil slice, an array decodes element-wise, anything else is a type error. -/
def decodeHistoryList : Json → DecodeResult (List (Option HistoricTemperatureData))
  | .null => .ok []
  | .arr xs => decodeHistList xs
  | _ => .err "cannot unmarshal value into Go value of type slice"

/-- `TemperatureState.UnmarshalJSON` from `common.go`, lines 95-115.
Steps, mirroring the source: unmarshal the bytes into
`map[string]interface{}`; read `raw["history"]` and `delete` it (absent
gives a nil `interface{}`, marshalled as `null`); marshal
`{"current": raw, "history": history}` (sorted keys: `current` first) and
unmarshal into the plain struct. `encoding/json` records the first error
of the `current` bucket and still decodes the `history` bucket, so a
panicking history entry aborts the process even when `current` already
failed; otherwise the first error in bucket order is returned. The
receiver is assigned only on success. -/
def TemperatureState.unmarshal : Option Json → DecodeResult TemperatureState
  | none => .err "invalid JSON"
  | some (.obj fs) =>
    match goDecodeFields fs with
    | none => .err "number out of range"
    | some gs =>
      match decodeHistoryList ((lookupKey "history" (toGoMap gs)).getD .null),
            decodeToolMapField (.obj (eraseKey "history" (toGoMap gs))) with
      | .panicked e, _ => .panicked e
      | _, .error e => .err e
      | .err e, .ok _ => .err e
      | .ok hs, .ok cur => .ok ⟨cur, hs⟩
  | some _ => .err "cannot unmarshal value into Go value of type map"

/-- The statement `*r = TemperatureState(*i)` runs only after every check
succeeded: the method either returns an error leaving the receiver `r`
untouched, or assigns the decoded value; `none` models the panic path
(the method does not return at all). -/
def TemperatureState.unmarshalInto (r : TemperatureState) (input : Option Json) :
    Option (TemperatureState × Option String) :=
  match TemperatureState.unmarshal input with
  | .ok v => some (v, none)
  | .err e => some (r, some e)
  | .panicked _ => none

/-- Same receiver discipline for `HistoricTemperatureData.UnmarshalJSON`:
`*h = HistoricTemperatureData(*i)` runs only on success. -/
def HistoricTemperatureData.unmarshalInto (h : HistoricTemperatureData) (input : Option Json) :
    Option (HistoricTemperatureData × Option String) :=
  match HistoricTemperatureData.unmarshal input with
  | .ok v => some (v, none)
  | .err e => some (h, some e)
  | .panicked _ => none

/-- `ConnectionState` from `common.go`: `type ConnectionState string`. -/
abbrev ConnectionState := String

/-- `strings.HasPrefix(s, p)`: byte-wise prefix test, case-sensitive, no
trimming. For the ASCII prefixes used by the classifier, byte-prefix on
UTF-8 bytes and character-prefix coincide. -/
def goHasPre (s p : String) : Bool := p.data.isPrefixOf s.data

/-- `ConnectionState.IsOperational` from `common.go`, lines 196-200. -/
def ConnectionState.IsOperational (s : ConnectionState) : Bool :=
  goHasPre s "Operational" || goHasPre s "Transfering" || goHasPre s "Paused"

/-- `ConnectionState.IsPrinting` from `common.go`, lines 202-206. -/
def ConnectionState.IsPrinting (s : ConnectionState) : Bool :=
  goHasPre s "Printing" || goHasPre s "Sending" || goHasPre s "Paused"

/-- `ConnectionState.IsOffline` from `common.go`, lines 208-211. -/
def ConnectionState.IsOffline (s : ConnectionState) : Bool :=
  goHasPre s "Offline" || goHasPre s "Closed"

/-- `ConnectionState.IsError` from `common.go`, lines 213-216. -/
def ConnectionState.IsError (s : ConnectionState) : Bool :=
  goHasPre s "Error" || goHasPre s "Unknown"

/-- `ConnectionState.IsConnecting` from `common.go`, lines 218-223 (the
source lists `Detecting` twice; kept verbatim). -/
def ConnectionState.IsConnecting (s : ConnectionState) : Bool :=
  goHasPre s "Opening" || goHasPre s "Detecting" || goHasPre s "Connecting" ||
    goHasPre s "Detecting"

/-! ### Association-list lemmas -/

theorem lookupKey_eq_none (k : String) (m : List (String × Json)) :
    lookupKey k m = none ↔ k ∉ m.map Prod.fst := by
  induction m with
  | nil => simp [lookupKey]
  | cons kv rest ih =>
    obtain ⟨k1, v1⟩ := kv
    by_cases h : k1 = k
    · subst h; simp [lookupKey]
    · have h2 : ¬ k = k1 := fun e => h e.symm
      simp [lookupKey, h, h2, ih]

theorem lookupKey_mem {k : String} {v : Json} {m : List (String × Json)}
    (h : lookupKey k m = some v) : (k, v) ∈ m := by
  induction m with
  | nil => simp [lookupKey] at h
  | cons kv rest ih =>
    obtain ⟨k1, v1⟩ := kv
    by_cases h1 : k1 = k
    · subst h1
      simp [lookupKey] at h
      simp [h]
    · simp [lookupKey, h1] at h
      exact List.mem_cons_of_mem _ (ih h)

theorem lookup_mapInsert (k k' : String) (v : Json) (m : List (String × Json)) :
    lookupKey k' (mapInsert k v m) = if k = k' then some v else lookupKey k' m := by
  induction m with
  | nil => simp [mapInsert, lookupKey]
  | cons kv rest ih =>
    obtain ⟨k1, v1⟩ := kv
    rw [mapInsert]
    by_cases hlt : strLtB k k1 = true
    · rw [if_pos hlt, lookupKey]
    · rw [if_neg hlt]
      by_cases heq : k = k1
      · rw [if_pos heq]
        by_cases h' : k = k'
        · have h1 : k1 = k' := heq ▸ h'
          simp [lookupKey, h', h1]
        · have h1 : ¬ k1 = k' := fun e => h' (heq.trans e)
          simp [lookupKey, h', h1]
      · rw [if_neg heq]
        by_cases h1 : k1 = k'
        · have h' : ¬ k = k' := fun e => heq (e.trans h1.symm)
          simp [lookupKey, h1, h']
        · simp [lookupKey, h1, ih]

theorem keys_mapInsert (k : String) (v : Json) (m : List (String × Json))
    (h : k ∉ m.map Prod.fst) :
    List.Perm ((mapInsert k v m).map Prod.fst) (k :: m.map Prod.fst) := by
  induction m with
  | nil => simp [mapInsert]
  | cons kv rest ih =>
    obtain ⟨k1, v1⟩ := kv
    simp only [List.map_cons, List.mem_cons] at h
    push_neg at h
    by_cases hlt : strLtB k k1 = true
    · simp [mapInsert, hlt]
    · by_cases heqk : k = k1
      · exact absurd heqk h.1
      · rw [mapInsert, if_neg hlt, if_neg heqk]
        simp only [List.map_cons]
        exact List.Perm.trans ((ih h.2).cons k1) (List.Perm.swap k k1 _)

theorem lookup_toGoMapAux_not_mem (fs m : List (String × Json)) (k : String)
    (h : k ∉ fs.map Prod.fst) :
    lookupKey k (toGoMapAux fs m) = lookupKey k m := by
  induction fs generalizing m with
  | nil => rfl
  | cons kv fs ih =>
    obtain ⟨k1, v1⟩ := kv
    simp only [List.map_cons, List.mem_cons] at h
    push_neg at h
    rw [toGoMapAux, ih _ h.2, lookup_mapInsert,
      if_neg (show ¬ k1 = k from fun e => h.1 e.symm)]

theorem lookup_toGoMapAux_mem (fs m : List (String × Json)) (k : String) (v : Json)
    (hnd : (fs.map Prod.fst).Nodup) (hmem : (k, v) ∈ fs) :
    lookupKey k (toGoMapAux fs m) = some v := by
  induction fs generalizing m with
  | nil => simp at hmem
  | cons kv fs ih =>
    obtain ⟨k1, v1⟩ := kv
    simp only [List.map_cons, List.nodup_cons] at hnd
    rcases List.mem_cons.mp hmem with h | h
    · injection h with e1 e2
      subst e1
      subst e2
      rw [toGoMapAux, lookup_toGoMapAux_not_mem fs _ k hnd.1, lookup_mapInsert, if_pos rfl]
    · exact ih (mapInsert k1 v1 m) hnd.2 h

theorem keys_toGoMapAux (fs m : List (String × Json))
    (hnd : (fs.map Prod.fst).Nodup)
    (hdisj : ∀ x ∈ fs.map Prod.fst, x ∉ m.map Prod.fst) :
    List.Perm ((toGoMapAux fs m).map Prod.fst) (fs.map Prod.fst ++ m.map Prod.fst) := by
  induction fs generalizing m with
  | nil => simp [toGoMapAux]
  | cons kv fs ih =>
    obtain ⟨k1, v1⟩ := kv
    simp only [List.map_cons, List.nodup_cons] at hnd
    have h1 : k1 ∉ m.map Prod.fst := hdisj k1 (by simp)
    have hk := keys_mapInsert k1 v1 m h1
    have hdisj2 : ∀ x ∈ fs.map Prod.fst, x ∉ (mapInsert k1 v1 m).map Prod.fst := by
      intro x hx hmem2
      rcases List.mem_cons.mp (hk.mem_iff.mp hmem2) with h | h
      · exact absurd (h ▸ hx) hnd.1
      · exact hdisj x (List.mem_cons_of_mem _ hx) h
    rw [toGoMapAux]
    have hmain := ih (mapInsert k1 v1 m) hnd.2 hdisj2
    have step2 : List.Perm (fs.map Prod.fst ++ (mapInsert k1 v1 m).map Prod.fst)
        (fs.map Prod.fst ++ (k1 :: m.map Prod.fst)) := List.Perm.append_left _ hk
    have step3 : List.Perm (fs.map Prod.fst ++ (k1 :: m.map Prod.fst))
        (k1 :: (fs.map Prod.fst ++ m.map Prod.fst)) := List.perm_middle
    simp only [List.map_cons]
    exact hmain.trans (step2.trans step3)

theorem keys_toGoMap (fs : List (String × Json)) (hnd : (fs.map Prod.fst).Nodup) :
    List.Perm ((toGoMap fs).map Prod.fst) (fs.map Prod.fst) := by
  simpa using keys_toGoMapAux fs [] hnd (by simp)

theorem lookup_toGoMap (fs : List (String × Json)) (k : String)
    (hnd : (fs.map Prod.fst).Nodup) :
    lookupKey k (toGoMap fs) = lookupKey k fs := by
  cases h : lookupKey k fs with
  | none =>
    rw [toGoMap, lookup_toGoMapAux_not_mem fs [] k ((lookupKey_eq_none k fs).mp h)]
    rfl
  | some v => exact lookup_toGoMapAux_mem fs [] k v hnd (lookupKey_mem h)

theorem keys_eraseKey (k : String) (m : List (String × Json)) :
    (eraseKey k m).map Prod.fst = (m.map Prod.fst).filter (fun s => s != k) := by
  induction m with
  | nil => rfl
  | cons kv rest ih =>
    obtain ⟨k1, v1⟩ := kv
    by_cases h : k1 = k
    · subst h; simp [eraseKey, ih]
    · simp [eraseKey, h, ih, List.filter_cons, bne_iff_ne]

theorem lookup_eraseKey_ne (k k' : String) (m : List (String × Json)) (h : k' ≠ k) :
    lookupKey k' (eraseKey k m) = lookupKey k' m := by
  induction m with
  | nil => rfl
  | cons kv rest ih =>
    obtain ⟨k1, v1⟩ := kv
    by_cases h1 : k1 = k
    · subst h1
      have h2 : ¬ k1 = k' := fun e => h e.symm
      simp [eraseKey, lookupKey, h2, ih]
    · by_cases h2 : k1 = k'
      · subst h2; simp [eraseKey, h1, lookupKey]
      · simp [eraseKey, h1, lookupKey, h2, ih]

/-! ### Lemmas about the generic decode pass -/

theorem goDecodeFields_keys {fs gs : List (String × Json)}
    (h : goDecodeFields fs = some gs) : gs.map Prod.fst = fs.map Prod.fst := by
  induction fs generalizing gs with
  | nil =>
    simp only [goDecodeFields, Option.some.injEq] at h
    subst h
    rfl
  | cons kv fs ih =>
    obtain ⟨k, v⟩ := kv
    simp only [goDecodeFields] at h
    rcases hv : goDecode v with _ | w <;> rw [hv] at h
    · simp at h
    · rcases hf : goDecodeFields fs with _ | ws <;> rw [hf] at h
      · simp at h
      · simp only [Option.some.injEq] at h
        subst h
        simp [ih hf]

theorem lookup_goDecodeFields {fs gs : List (String × Json)} {k : String} {v : Json}
    (hg : goDecodeFields fs = some gs) (hl : lookupKey k fs = some v) :
    ∃ w, goDecode v = some w ∧ lookupKey k gs = some w := by
  induction fs generalizing gs with
  | nil => simp [lookupKey] at hl
  | cons kv fs ih =>
    obtain ⟨k1, v1⟩ := kv
    simp only [goDecodeFields] at hg
    rcases hv : goDecode v1 with _ | w1 <;> rw [hv] at hg
    · simp at hg
    · rcases hf : goDecodeFields fs with _ | ws <;> rw [hf] at hg
      · simp at hg
      · simp only [Option.some.injEq] at hg
        subst hg
        by_cases h1 : k1 = k
        · subst h1
          rw [lookupKey, if_pos rfl] at hl
          injection hl with hl
          subst hl
          exact ⟨w1, hv, by simp [lookupKey]⟩
        · simp only [lookupKey, if_neg h1] at hl ⊢
          exact ih hf hl

theorem goDecodeList_ok {xs ys : List Json} (h : goDecodeList xs = some ys) :
    ys.length = xs.length ∧
      ∀ i (h1 : i < xs.length) (h2 : i < ys.length),
        goDecode (xs.get ⟨i, h1⟩) = some (ys.get ⟨i, h2⟩) := by
  induction xs generalizing ys with
  | nil =>
    simp only [goDecodeList, Option.some.injEq] at h
    subst h
    refine ⟨rfl, ?_⟩
    intro i h1 h2
    simp at h1
  | cons x xs ih =>
    simp only [goDecodeList] at h
    rcases hv : goDecode x with _ | y <;> rw [hv] at h
    · simp at h
    · rcases hr : goDecodeList xs with _ | ys' <;> rw [hr] at h
      · simp at h
      · simp only [Option.some.injEq] at h
        subst h
        obtain ⟨hlen, hidx⟩ := ih hr
        refine ⟨by simp [hlen], ?_⟩
        intro i h1 h2
        cases i with
        | zero => simpa using hv
        | succ j =>
          simp only [List.length_cons, Nat.succ_lt_succ_iff] at h1 h2
          simpa using hidx j h1 h2

theorem decodeHistList_ok {xs : List Json} {hs : List (Option HistoricTemperatureData)}
    (h : decodeHistList xs = .ok hs) :
    hs.length = xs.length ∧
      ∀ i (h1 : i < xs.length) (h2 : i < hs.length),
        decodeHistElem (xs.get ⟨i, h1⟩) = .ok (hs.get ⟨i, h2⟩) := by
  induction xs generalizing hs with
  | nil =>
    simp only [decodeHistList] at h
    injection h with h'
    subst h'
    refine ⟨rfl, ?_⟩
    intro i h1 h2
    simp at h1
  | cons x xs ih =>
    simp only [decodeHistList] at h
    rcases he : decodeHistElem x with a | e | e <;> rw [he] at h <;>
      rcases hr : decodeHistList xs with l | e2 | e2 <;> rw [hr] at h <;> simp at h
    subst h
    obtain ⟨hlen, hidx⟩ := ih hr
    refine ⟨by simp [hlen], ?_⟩
    intro i h1 h2
    cases i with
    | zero => simpa using he
    | succ j =>
      simp only [List.length_cons, Nat.succ_lt_succ_iff] at h1 h2
      simpa using hidx j h1 h2

theorem goDecodeFields_fix {fs : List (String × Json)}
    (h : ∀ kv ∈ fs, goDecode kv.2 = some kv.2) : goDecodeFields fs = some fs := by
  induction fs with
  | nil => rfl
  | cons kv fs ih =>
    obtain ⟨k, v⟩ := kv
    have h1 : goDecode v = some v := h (k, v) (by simp)
    have h2 : goDecodeFields fs = some fs :=
      ih (fun kv hkv => h kv (List.mem_cons_of_mem _ hkv))
    simp [goDecodeFields, h1, h2]

theorem decodeToolMap_keys {fs : List (String × Json)}
    {m : List (String × TemperatureData)} (h : decodeToolMap fs = .ok m) :
    m.map Prod.fst = fs.map Prod.fst := by
  induction fs generalizing m with
  | nil =>
    simp only [decodeToolMap] at h
    injection h with h'
    subst h'
    rfl
  | cons kv fs ih =>
    obtain ⟨k, v⟩ := kv
    simp only [decodeToolMap] at h
    rcases hv : decodeTD v with e | td <;> rw [hv] at h <;>
      rcases hr : decodeToolMap fs with e2 | m' <;> rw [hr] at h <;> simp at h
    subst h
    simp [ih hr]

/-! ### Claim theorems -/

/-- C2: For every string `s`, the five `ConnectionState` predicates are each
true exactly when `s` has one of the fixed prefixes of its family, by
case-sensitive prefix match with no trimming: `IsOperational` for
`Operational`/`Transfering`/`Paused`, `IsPrinting` for
`Printing`/`Sending`/`Paused`, `IsOffline` for `Offline`/`Closed`,
`IsError` for `Error`/`Unknown`, `IsConnecting` for
`Opening`/`Detecting`/`Connecting`. -/
theorem connectionState_pred_iff (s : ConnectionState) :
    (ConnectionState.IsOperational s = true ↔
      ("Operational".data.IsPrefix s.data ∨ "Transfering".data.IsPrefix s.data ∨
        "Paused".data.IsPrefix s.data))
  ∧ (ConnectionState.IsPrinting s = true ↔
      ("Printing".data.IsPrefix s.data ∨ "Sending".data.IsPrefix s.data ∨
        "Paused".data.IsPrefix s.data))
  ∧ (ConnectionState.IsOffline s = true ↔
      ("Offline".data.IsPrefix s.data ∨ "Closed".data.IsPrefix s.data))
  ∧ (ConnectionState.IsError s = true ↔
      ("Error".data.IsPrefix s.data ∨ "Unknown".data.IsPrefix s.data))
  ∧ (ConnectionState.IsConnecting s = true ↔
      ("Opening".data.IsPrefix s.data ∨ "Detecting".data.IsPrefix s.data ∨
        "Connecting".data.IsPrefix s.data)) := by
  refine ⟨?_, ?_, ?_, ?_, ?_⟩ <;>
    simp only [ConnectionState.IsOperational, ConnectionState.IsPrinting,
      ConnectionState.IsOffline, ConnectionState.IsError, ConnectionState.IsConnecting,
      goHasPre, Bool.or_eq_true, List.isPrefixOf_iff_prefix] <;>
    tauto

/-- C6: Every label beginning with `Paused` is classified as both
operational and printing, and on the exact label `Paused` the remaining
three predicates are all false. -/
theorem paused_label_flags :
    (∀ s : ConnectionState, "Paused".data.IsPrefix s.data →
      ConnectionState.IsOperational s = true ∧ ConnectionState.IsPrinting s = true)
  ∧ ConnectionState.IsOffline "Paused" = false
  ∧ ConnectionState.IsError "Paused" = false
  ∧ ConnectionState.IsConnecting "Paused" = false := by
  refine ⟨?_, by decide, by decide, by decide⟩
  intro s hp
  have hb : goHasPre s "Paused" = true := by
    rw [goHasPre]
    exact List.isPrefixOf_iff_prefix.mpr hp
  constructor <;>
    simp [ConnectionState.IsOperational, ConnectionState.IsPrinting, hb]

/-- Witness for C6 at the concrete label `"Paused"`. -/
theorem paused_label_flags_witness :
    ConnectionState.IsOperational "Paused" = true ∧
      ConnectionState.IsPrinting "Paused" = true :=
  paused_label_flags.1 "Paused" (by decide)

/-- The twelve prefixes of the five families of the classifier. -/
def connStateFamilies : List String :=
  ["Operational", "Transfering", "Paused", "Printing", "Sending",
   "Offline", "Closed", "Error", "Unknown", "Opening", "Detecting", "Connecting"]

/-- C7: The classifier is total (each predicate is a Boolean-valued total
function, so there is nothing to fail), and any label starting with none of
the listed prefixes — the empty string included — makes all five predicates
false, as a valid outcome rather than an error. -/
theorem unknown_label_all_false (s : ConnectionState)
    (h : ∀ p ∈ connStateFamilies, ¬ p.data.IsPrefix s.data) :
    ConnectionState.IsOperational s = false ∧ ConnectionState.IsPrinting s = false ∧
      ConnectionState.IsOffline s = false ∧ ConnectionState.IsError s = false ∧
      ConnectionState.IsConnecting s = false := by
  have hp : ∀ p, p ∈ connStateFamilies → goHasPre s p = false := by
    intro p hm
    rw [goHasPre, Bool.eq_false_iff]
    intro hcon
    exact h p hm (List.isPrefixOf_iff_prefix.mp hcon)
  have h01 := hp "Operational" (by simp [connStateFamilies])
  have h02 := hp "Transfering" (by simp [connStateFamilies])
  have h03 := hp "Paused" (by simp [connStateFamilies])
  have h04 := hp "Printing" (by simp [connStateFamilies])
  have h05 := hp "Sending" (by simp [connStateFamilies])
  have h06 := hp "Offline" (by simp [connStateFamilies])
  have h07 := hp "Closed" (by simp [connStateFamilies])
  have h08 := hp "Error" (by simp [connStateFamilies])
  have h09 := hp "Unknown" (by simp [connStateFamilies])
  have h10 := hp "Opening" (by simp [connStateFamilies])
  have h11 := hp "Detecting" (by simp [connStateFamilies])
  have h12 := hp "Connecting" (by simp [connStateFamilies])
  exact ⟨by simp [ConnectionState.IsOperational, h01, h02, h03],
    by simp [ConnectionState.IsPrinting, h04, h05, h03],
    by simp [ConnectionState.IsOffline, h06, h07],
    by simp [ConnectionState.IsError, h08, h09],
    by simp [ConnectionState.IsConnecting, h10, h11, h12]⟩

/-- Witness for C7 at the concrete labels `"Something else entirely"` and
`""`. -/
theorem unknown_label_all_false_witness :
    (ConnectionState.IsOperational "Something else entirely" = false ∧
      ConnectionState.IsPrinting "Something else entirely" = false ∧
      ConnectionState.IsOffline "Something else entirely" = false ∧
      ConnectionState.IsError "Something else entirely" = false ∧
      ConnectionState.IsConnecting "Something else entirely" = false)
  ∧ (ConnectionState.IsOperational "" = false ∧
      ConnectionState.IsPrinting "" = false ∧
      ConnectionState.IsOffline "" = false ∧
      ConnectionState.IsError "" = false ∧
      ConnectionState.IsConnecting "" = false) :=
  ⟨unknown_label_all_false "Something else entirely" (by decide),
   unknown_label_all_false "" (by decide)⟩

/-- C3 (code bug evaluated at the failing inputs): on a historic entry
object with `"time"` absent, and on one whose `"time"` value is not
numeric, `HistoricTemperatureData.UnmarshalJSON` does not return a decode
error: the unchecked type assertion `ts.(float64)` panics and terminates
the process. The specification states decode errors for these inputs and
itself flags the panic as a defect to correct. -/
theorem historic_missing_time_panics :
    HistoricTemperatureData.unmarshal
      (some (.obj [("tool0", .obj [("actual", .num 199), ("target", .num 200)])]))
      = .panicked "interface conversion: interface is nil or not float64"
  ∧ HistoricTemperatureData.unmarshal
      (some (.obj [("time", .str "2021-01-07"), ("tool0", .obj [("actual", .num 199)])]))
      = .panicked "interface conversion: interface is nil or not float64" :=
  ⟨rfl, rfl⟩

/-- C9: Whenever either `UnmarshalJSON` returns a non-nil error, the
receiver is left exactly as it was before the call: the receiver is
assigned only after every decoding step has succeeded. -/
theorem unmarshal_error_leaves_receiver :
    (∀ (r : TemperatureState) (input : Option Json) (r2 : TemperatureState) (e : String),
      TemperatureState.unmarshalInto r input = some (r2, some e) → r2 = r)
  ∧ (∀ (h : HistoricTemperatureData) (input : Option Json)
      (h2 : HistoricTemperatureData) (e : String),
      HistoricTemperatureData.unmarshalInto h input = some (h2, some e) → h2 = h) := by
  constructor
  · intro r input r2 e h1
    rw [TemperatureState.unmarshalInto] at h1
    rcases hu : TemperatureState.unmarshal input with v | e2 | e2 <;> rw [hu] at h1 <;>
      simp at h1
    exact h1.1.symm
  · intro h input h2 e h1
    rw [HistoricTemperatureData.unmarshalInto] at h1
    rcases hu : HistoricTemperatureData.unmarshal input with v | e2 | e2 <;> rw [hu] at h1 <;>
      simp at h1
    exact h1.1.symm

/-- Witness for C9: unparseable input bytes make both decoders return an
error and leave the receiver unchanged. -/
theorem unmarshal_error_leaves_receiver_witness :
    TemperatureState.unmarshalInto ⟨[], []⟩ none = some (⟨[], []⟩, some "invalid JSON")
  ∧ ((⟨[], []⟩ : TemperatureState) = ⟨[], []⟩)
  ∧ HistoricTemperatureData.unmarshalInto ⟨⟨0, 0⟩, []⟩ none
      = some (⟨⟨0, 0⟩, []⟩, some "invalid JSON")
  ∧ ((⟨⟨0, 0⟩, []⟩ : HistoricTemperatureData) = ⟨⟨0, 0⟩, []⟩) :=
  ⟨rfl, unmarshal_error_leaves_receiver.1 ⟨[], []⟩ none ⟨[], []⟩ "invalid JSON" rfl,
   rfl, unmarshal_error_leaves_receiver.2 ⟨⟨0, 0⟩, []⟩ none ⟨⟨0, 0⟩, []⟩ "invalid JSON" rfl⟩

/-- C10: Both decoders and all five classifier predicates are
deterministic pure functions: equal inputs give equal decoded snapshots or
equal error outcomes, and equal booleans. (The embedding is a pure
function of the input value alone, mirroring that the Go code reads no
state other than its arguments.) -/
theorem decoders_and_classifier_deterministic (x y : Option Json) (hxy : x = y)
    (s t : ConnectionState) (hst : s = t) :
    TemperatureState.unmarshal x = TemperatureState.unmarshal y
  ∧ HistoricTemperatureData.unmarshal x = HistoricTemperatureData.unmarshal y
  ∧ ConnectionState.IsOperational s = ConnectionState.IsOperational t
  ∧ ConnectionState.IsPrinting s = ConnectionState.IsPrinting t
  ∧ ConnectionState.IsOffline s = ConnectionState.IsOffline t
  ∧ ConnectionState.IsError s = ConnectionState.IsError t
  ∧ ConnectionState.IsConnecting s = ConnectionState.IsConnecting t := by
  subst hxy
  subst hst
  exact ⟨rfl, rfl, rfl, rfl, rfl, rfl, rfl⟩

/-- Witness for C10 at concrete equal inputs. -/
theorem decoders_and_classifier_deterministic_witness :
    TemperatureState.unmarshal none = TemperatureState.unmarshal none
  ∧ HistoricTemperatureData.unmarshal none = HistoricTemperatureData.unmarshal none
  ∧ ConnectionState.IsOperational "Operational" = ConnectionState.IsOperational "Operational"
  ∧ ConnectionState.IsPrinting "Operational" = ConnectionState.IsPrinting "Operational"
  ∧ ConnectionState.IsOffline "Operational" = ConnectionState.IsOffline "Operational"
  ∧ ConnectionState.IsError "Operational" = ConnectionState.IsError "Operational"
  ∧ ConnectionState.IsConnecting "Operational" = ConnectionState.IsConnecting "Operational" :=
  decoders_and_classifier_deterministic none none rfl "Operational" "Operational" rfl

/-- C8 (code bug evaluated at the failing input): unparseable bytes and a
non-object top level do produce decode errors, and a tool value of the
wrong shape alone produces a decode error — but when a malformed tool
value happens together with a history entry lacking a numeric `"time"`,
`encoding/json` records the tool error, continues into the history array,
and the unchecked type assertion panics: the method crashes the process
instead of returning the recoverable decode error the claim states. -/
theorem tempState_error_vs_crash :
    TemperatureState.unmarshal none = .err "invalid JSON"
  ∧ TemperatureState.unmarshal (some (.num 5))
      = .err "cannot unmarshal value into Go value of type map"
  ∧ TemperatureState.unmarshal (some (.obj [("a", .bool true)]))
      = .err "cannot unmarshal value into Go value of type octoprint.TemperatureData"
  ∧ TemperatureState.unmarshal
      (some (.obj [("a", .bool true), ("history", .arr [.obj []])]))
      = .panicked "interface conversion: interface is nil or not float64" :=
  ⟨rfl, rfl, rfl, rfl⟩

/-- C4: For every historic entry whose `"time"` value is an integral Unix
epoch (binary64-representable and within `time.Time`'s marshallable year
range) and whose tool entries decode, the decoded `Time` is exactly that
epoch as UTC seconds since 1970-01-01T00:00:00Z, with nanosecond component
0: whole-second resolution, never a fractional part. -/
theorem historic_decode_epoch_utc
    (fs gs : List (String × Json)) (q : ℚ) (tools : List (String × TemperatureData))
    (hnd : (fs.map Prod.fst).Nodup)
    (hg : goDecodeFields fs = some gs)
    (hq : lookupKey "time" fs = some (.num q))
    (hfix : round53 q = some q)
    (hden : q.den = 1)
    (hlo : -62167219200 ≤ q.num) (hhi : q.num ≤ 253402300799)
    (ht : decodeToolMap (eraseKey "time" (toGoMap gs)) = .ok tools) :
    HistoricTemperatureData.unmarshal (some (.obj fs)) = .ok ⟨⟨q.num, 0⟩, tools⟩ := by
  have hndg : (gs.map Prod.fst).Nodup := by
    rw [goDecodeFields_keys hg]
    exact hnd
  obtain ⟨w, hw, hlg⟩ := lookup_goDecodeFields hg hq
  have hwq : w = Json.num q := by
    rw [goDecode, hfix] at hw
    injection hw with hw
    exact hw.symm
  subst hwq
  have hlt : lookupKey "time" (toGoMap gs) = some (.num q) := by
    rw [lookup_toGoMap gs _ hndg]
    exact hlg
  have htr : truncInt q = q.num := by
    rw [truncInt, hden]
    simp only [Nat.cast_one, Int.ediv_one, neg_neg]
    split <;> rfl
  have hok : timeUnixOK q.num = true := by
    rw [timeUnixOK]
    simp [hlo, hhi]
  simp only [HistoricTemperatureData.unmarshal, hg, hlt, htr, hok, if_true, ht, timeUnix]

/-- Witness for C4 at the specification's concrete historic entry. -/
theorem historic_decode_epoch_utc_witness :
    HistoricTemperatureData.unmarshal (some (.obj
      [("time", .num 1610000000),
       ("tool0", .obj [("actual", .num 199), ("target", .num 200)])]))
      = .ok ⟨⟨1610000000, 0⟩, [("tool0", ⟨199, 200, 0⟩)]⟩ := by
  have T := historic_decode_epoch_utc
    [("time", Json.num 1610000000),
     ("tool0", Json.obj [("actual", Json.num 199), ("target", Json.num 200)])]
    [("time", Json.num 1610000000),
     ("tool0", Json.obj [("actual", Json.num 199), ("target", Json.num 200)])]
    1610000000
    [("tool0", ⟨199, 200, 0⟩)]
    (by decide) rfl rfl (by decide) rfl (by decide) (by decide) rfl
  exact T

/-- C5 counterexample: the decode/re-encode pass does coerce numeric
values. The integer 9007199254740993 = 2^53 + 1 is not binary64-
representable; the generic decode both decoders run on their input maps it
to 9007199254740992, so the non-reserved entry `tool0` does not reach the
split's output verbatim. -/
theorem split_coerces_number :
    goDecodeFields [("tool0", Json.obj [("actual", Json.num 9007199254740993)])]
      = some [("tool0", Json.obj [("actual", Json.num 9007199254740992)])]
  ∧ lookupKey "tool0" (eraseKey "history"
      (toGoMap [("tool0", Json.obj [("actual", Json.num 9007199254740992)])]))
      = some (Json.obj [("actual", Json.num 9007199254740992)])
  ∧ (9007199254740993 : ℚ) ≠ 9007199254740992 :=
  ⟨rfl, rfl, by decide⟩

/-- C5 (amended): the reserved-key split does not mutate its input (both
the embedding and the Go code are pure in the input bytes; the map the Go
code deletes from is its own fresh copy), and every non-reserved entry
reaches the split's output bucket with its exact original value whenever
that value is a fixed point of Go's generic decode — every number in it
exactly binary64-representable and nested objects already in canonical
(sorted, duplicate-free) key form. In general numbers are coerced through
binary64 and nested object keys are re-sorted (see the counterexample). -/
theorem split_preserves_canonical_values
    (fs : List (String × Json))
    (hnd : (fs.map Prod.fst).Nodup)
    (hfix : ∀ kv ∈ fs, goDecode kv.2 = some kv.2) :
    goDecodeFields fs = some fs
  ∧ (∀ k v, (k, v) ∈ fs → k ≠ "history" →
      lookupKey k (eraseKey "history" (toGoMap fs)) = some v)
  ∧ (∀ k v, (k, v) ∈ fs → k ≠ "time" →
      lookupKey k (eraseKey "time" (toGoMap fs)) = some v) := by
  refine ⟨goDecodeFields_fix hfix, ?_, ?_⟩ <;>
    intro k v hmem hne <;>
    rw [lookup_eraseKey_ne _ _ _ hne] <;>
    exact lookup_toGoMapAux_mem fs [] k v hnd hmem

/-- Witness for C5's amended statement at a concrete representable entry. -/
theorem split_preserves_canonical_values_witness :
    lookupKey "bed" (eraseKey "history"
      (toGoMap [("bed", Json.obj [("actual", Json.num 60)])]))
      = some (Json.obj [("actual", Json.num 60)]) :=
  (split_preserves_canonical_values [("bed", Json.obj [("actual", Json.num 60)])]
    (by decide)
    (by
      intro kv hkv
      simp only [List.mem_singleton] at hkv
      subst hkv
      rfl)).2.1 "bed" (Json.obj [("actual", Json.num 60)]) (by simp) (by decide)

/-- C1: For every well-shaped temperature payload — a JSON object with
distinct keys whose rest bucket decodes as tool readings and whose
optional `history` bucket decodes as historic entries — decoding succeeds,
`Current` carries exactly the non-`history` keys of the input, and
`History` has exactly the input array's length with entries decoded
index-for-index in input order; an absent `history` key yields an empty
`History` and no error. -/
theorem tempState_decode_shape
    (fs gs : List (String × Json))
    (cur : List (String × TemperatureData))
    (hs : List (Option HistoricTemperatureData))
    (hnd : (fs.map Prod.fst).Nodup)
    (hg : goDecodeFields fs = some gs)
    (hc : decodeToolMap (eraseKey "history" (toGoMap gs)) = .ok cur)
    (hh : decodeHistoryList ((lookupKey "history" (toGoMap gs)).getD .null) = .ok hs) :
    TemperatureState.unmarshal (some (.obj fs)) = .ok ⟨cur, hs⟩
  ∧ List.Perm (cur.map Prod.fst) ((fs.map Prod.fst).filter (fun k => k != "history"))
  ∧ (lookupKey "history" fs = none → hs = [])
  ∧ ∀ xs, lookupKey "history" fs = some (.arr xs) →
      hs.length = xs.length ∧
      ∀ i (h1 : i < xs.length) (h2 : i < hs.length),
        ∃ y, goDecode (xs.get ⟨i, h1⟩) = some y ∧
          decodeHistElem y = .ok (hs.get ⟨i, h2⟩) := by
  have hndg : (gs.map Prod.fst).Nodup := by
    rw [goDecodeFields_keys hg]
    exact hnd
  refine ⟨?_, ?_, ?_, ?_⟩
  · simp only [TemperatureState.unmarshal, hg, decodeToolMapField, hc, hh]
  · have k1 : cur.map Prod.fst = (eraseKey "history" (toGoMap gs)).map Prod.fst :=
      decodeToolMap_keys hc
    rw [k1, keys_eraseKey]
    have k6 : List.Perm ((gs.map Prod.fst).filter (fun s => s != "history"))
        ((fs.map Prod.fst).filter (fun s => s != "history")) := by
      rw [goDecodeFields_keys hg]
    exact (List.Perm.filter _ (keys_toGoMap gs hndg)).trans k6
  · intro h0
    have h1 : lookupKey "history" gs = none := by
      rw [lookupKey_eq_none] at h0 ⊢
      rw [goDecodeFields_keys hg]
      exact h0
    have h2 : lookupKey "history" (toGoMap gs) = none := by
      rw [lookup_toGoMap gs _ hndg]
      exact h1
    rw [h2] at hh
    simp only [Option.getD_none, decodeHistoryList] at hh
    injection hh with hh
    exact hh.symm
  · intro xs hxs
    obtain ⟨w, hw, hlg⟩ := lookup_goDecodeFields hg hxs
    rcases hys : goDecodeList xs with _ | ys <;> rw [goDecode, hys] at hw <;> simp at hw
    subst hw
    have h2 : lookupKey "history" (toGoMap gs) = some (.arr ys) := by
      rw [lookup_toGoMap gs _ hndg]
      exact hlg
    rw [h2] at hh
    simp only [Option.getD_some, decodeHistoryList] at hh
    obtain ⟨hlen2, hidx2⟩ := decodeHistList_ok hh
    obtain ⟨hlen1, hidx1⟩ := goDecodeList_ok hys
    refine ⟨by omega, ?_⟩
    intro i hi1 hi2
    have hiy : i < ys.length := by omega
    exact ⟨ys.get ⟨i, hiy⟩, hidx1 i hi1 hiy, hidx2 i hiy hi2⟩

/-- Witness for C1 at the specification's concrete temperature payload
(two tools and one historic sample). -/
theorem tempState_decode_shape_witness :
    TemperatureState.unmarshal (some (.obj
      [("tool0", .obj [("actual", .num 200), ("target", .num 200), ("offset", .num 0)]),
       ("bed", .obj [("actual", .num 60), ("target", .num 60), ("offset", .num 0)]),
       ("history", .arr [.obj [("time", .num 1610000000),
         ("tool0", .obj [("actual", .num 199), ("target", .num 200)])]])]))
      = .ok ⟨[("bed", ⟨60, 60, 0⟩), ("tool0", ⟨200, 200, 0⟩)],
             [some ⟨⟨1610000000, 0⟩, [("tool0", ⟨199, 200, 0⟩)]⟩]⟩
  ∧ List.Perm ["bed", "tool0"] ["tool0", "bed"] := by
  have T := tempState_decode_shape
    [("tool0", Json.obj [("actual", Json.num 200), ("target", Json.num 200),
        ("offset", Json.num 0)]),
     ("bed", Json.obj [("actual", Json.num 60), ("target", Json.num 60),
        ("offset", Json.num 0)]),
     ("history", Json.arr [Json.obj [("time", Json.num 1610000000),
        ("tool0", Json.obj [("actual", Json.num 199), ("target", Json.num 200)])]])]
    [("tool0", Json.obj [("actual", Json.num 200), ("offset", Json.num 0),
        ("target", Json.num 200)]),
     ("bed", Json.obj [("actual", Json.num 60), ("offset", Json.num 0),
        ("target", Json.num 60)]),
     ("history", Json.arr [Json.obj [("time", Json.num 1610000000),
        ("tool0", Json.obj [("actual", Json.num 199), ("target", Json.num 200)])]])]
    [("bed", ⟨60, 60, 0⟩), ("tool0", ⟨200, 200, 0⟩)]
    [some ⟨⟨1610000000, 0⟩, [("tool0", ⟨199, 200, 0⟩)]⟩]
    (by decide) rfl rfl rfl
  exact ⟨T.1, T.2.1⟩
